import Mathlib

/-!
Verification of the upstream selection-and-health engine declared in
`src/libutil/upstream.h`.  The header is the only source file present; the
implementation it declares (`upstream.c`) is not part of the given sources,
so the engine is modelled from the specification (data model §3, component
design §4, error handling §7).  Wall-clock times are modelled as natural
numbers, IP addresses and opaque user pointers as natural numbers, and the
random draws of the engine (revive jitter, weighted random selection) are
passed in as explicit oracle arguments.
-/

namespace Rspamd

/-- Modelled from the spec: watcher events, bitmask {SUCCESS, FAILURE,
OFFLINE, ONLINE} of `enum rspamd_upstreams_watch_event`. -/
inductive WatchEvent
  | success
  | failure
  | offline
  | online
deriving Repr, DecidableEq

/-- A single watcher firing: the index of the endpoint concerned and the
event.  Operations of the engine return the list of notices they fire, in
order. -/
structure WatchNotice where
  idx : Nat
  ev : WatchEvent
deriving Repr, DecidableEq

/-- Modelled from the spec: per-list limits (§3, §6).  Times are integral
seconds; the fractional `revive_jitter` of the source only enters through
the jitter oracle of `rspamd_upstream_fail`, so it is kept as an abstract
natural here. -/
structure Limits where
  revive_time : Nat
  revive_jitter : Nat
  error_time : Nat
  dns_timeout : Nat
  max_errors : Nat
  dns_retransmits : Nat
deriving Repr, DecidableEq

/-- Modelled from the spec: selection policies of
`enum rspamd_upstream_rotation` (§3). -/
inductive Rotation
  | random
  | hashed
  | round_robin
  | master_slave
  | sequential
  | undef
deriving Repr, DecidableEq

/-- Modelled from the spec: one endpoint (`struct upstream`, §3).  The
address set is the ordered list `addrs` with cursor `addr_cursor`; `user`
is the opaque user pointer (None models NULL); reference counts and the
weak parent pointer are memory-management artefacts with no observable
effect on the engine's state and are not modelled. -/
structure Upstream where
  name : String
  port : Nat
  priority : Nat
  weight : Nat
  errors : Nat
  window_start : Option Nat
  revive_at : Nat
  alive : Bool
  addrs : List Nat
  addr_cursor : Nat
  user : Option Nat
deriving Repr, DecidableEq

/-- Modelled from the spec: a list of endpoints (`struct upstream_list`,
§3) with its policy, cached round-robin cursor, cached alive counter and
limits.  The lazily built hash ring is abstracted into the hashed
selection function itself. -/
structure UpstreamList where
  ups : List Upstream
  rot : Rotation
  rr_cursor : Nat
  alive_count : Nat
  limits : Limits
deriving Repr, DecidableEq

/-- Number of endpoints whose `alive` flag is set (the right-hand side of
the spec invariant `alive_count = |{e : e.alive}|`). -/
def countAlive : List Upstream → Nat
  | [] => 0
  | u :: t => (if u.alive then 1 else 0) + countAlive t

/-- Modelled from the spec: `rspamd_upstreams_create`; a fresh list is
empty, with the undefined policy and the context-supplied limits (§3). -/
def rspamd_upstreams_create (lim : Limits) : UpstreamList :=
  { ups := [], rot := .undef, rr_cursor := 0, alive_count := 0, limits := lim }

/-- Modelled from the spec: `rspamd_upstreams_set_rotation` (§3). -/
def rspamd_upstreams_set_rotation (ls : UpstreamList) (rot : Rotation) : UpstreamList :=
  { ls with rot := rot }

/-- Returns the count of upstreams in a list (`rspamd_upstreams_count`). -/
def rspamd_upstreams_count (ls : UpstreamList) : Nat :=
  ls.ups.length

/-- Returns the cached alive counter (`rspamd_upstreams_alive`). -/
def rspamd_upstreams_alive (ls : UpstreamList) : Nat :=
  ls.alive_count

/-- Modelled from the spec: the revival deadline
`revive_at = now + revive_time + uniform(-jitter, +jitter) * revive_time`
(§4.3); the drawn jitter term is the oracle argument `jit` and the total
delay is clamped to at least one second (§9: symmetric jitter "clamped to
a small positive" to avoid immediate flapping). -/
def reviveAt (lim : Limits) (now : Nat) (jit : Int) : Nat :=
  now + (max 1 ((lim.revive_time : Int) + jit)).toNat

/-- Modelled from the spec: the error-window bookkeeping of `fail` in
Alive (§4.3): if `window_start` is unset or `now - window_start ≥
error_time`, the window is reset (`window_start = now, errors = 1`);
otherwise `errors` is incremented.  Returns the new `(window_start,
errors)` pair. -/
def failWindow (lim : Limits) (u : Upstream) (now : Nat) : Nat × Nat :=
  match u.window_start with
  | none => (now, 1)
  | some w => if lim.error_time ≤ now - w then (now, 1) else (w, u.errors + 1)

/-- Advance the address cursor of an endpoint by one position, wrapping
around the address set; a no-op on an empty address set. -/
def advanceAddrCursor (u : Upstream) : Upstream :=
  if u.addrs.isEmpty then u
  else { u with addr_cursor := (u.addr_cursor + 1) % u.addrs.length }

/-- The endpoint after a `fail` in Alive that stays below the threshold
(§4.3): error window updated and, on an address failure, the address
cursor advanced. -/
def bumpUp (lim : Limits) (u : Upstream) (addr_failure : Bool) (now : Nat) : Upstream :=
  let we := failWindow lim u now
  let u1 : Upstream := { u with errors := we.2, window_start := some we.1 }
  if addr_failure then advanceAddrCursor u1 else u1

/-- The endpoint after a `fail` in Alive that reaches the threshold
(§4.3): as `bumpUp`, plus the transition to Dead with the jittered
revival deadline. -/
def killUp (lim : Limits) (u : Upstream) (addr_failure : Bool) (now : Nat) (jit : Int) :
    Upstream :=
  { bumpUp lim u addr_failure now with
      alive := false, revive_at := reviveAt lim now jit }

/-- Modelled from the spec: `rspamd_upstream_fail` (§4.3).  In Alive the
error window is updated; on reaching `max_errors` the endpoint goes Dead
(`alive = false`, `revive_at` jittered into the future, `alive_count`
decremented, FAILURE and OFFLINE fired); an `addr_failure` additionally
advances the address cursor.  In Dead the call is idempotent and only
fires FAILURE.  `now` is the wall clock and `jit` the jitter oracle. -/
def rspamd_upstream_fail (ls : UpstreamList) (i : Nat) (addr_failure : Bool)
    (now : Nat) (jit : Int) : UpstreamList × List WatchNotice :=
  match ls.ups.get? i with
  | none => (ls, [])
  | some u =>
    if u.alive then
      if ls.limits.max_errors ≤ (failWindow ls.limits u now).2 then
        ({ ls with
             ups := ls.ups.set i (killUp ls.limits u addr_failure now jit),
             alive_count := ls.alive_count - 1 },
         [⟨i, .failure⟩, ⟨i, .offline⟩])
      else
        ({ ls with ups := ls.ups.set i (bumpUp ls.limits u addr_failure now) },
         [⟨i, .failure⟩])
    else
      (ls, [⟨i, .failure⟩])

/-- The endpoint after an `ok` in Alive (§4.3): errors reset, window
cleared. -/
def okUp (u : Upstream) : Upstream :=
  { u with errors := 0, window_start := none }

/-- Modelled from the spec: `rspamd_upstream_ok` (§4.3).  In Alive the
errors are reset and the window cleared, firing SUCCESS; in Dead (and on
an out-of-range index) the call is a no-op. -/
def rspamd_upstream_ok (ls : UpstreamList) (i : Nat) : UpstreamList × List WatchNotice :=
  match ls.ups.get? i with
  | none => (ls, [])
  | some u =>
    if u.alive then
      ({ ls with ups := ls.ups.set i (okUp u) }, [⟨i, .success⟩])
    else
      (ls, [])

/-- The endpoint after a revival timer tick in Dead (§4.3): back to
Alive, errors reset, window cleared. -/
def wakeUp (u : Upstream) : Upstream :=
  { u with alive := true, errors := 0, window_start := none }

/-- Modelled from the spec: the revival timer tick (§4.3).  At or after
`revive_at` a Dead endpoint goes back to Alive with `errors = 0`, the
window cleared, `alive_count` incremented and ONLINE fired; otherwise the
tick is a no-op. -/
def rspamd_upstream_revive (ls : UpstreamList) (i : Nat) (now : Nat) :
    UpstreamList × List WatchNotice :=
  match ls.ups.get? i with
  | none => (ls, [])
  | some u =>
    if u.alive = false ∧ u.revive_at ≤ now then
      ({ ls with ups := ls.ups.set i (wakeUp u), alive_count := ls.alive_count + 1 },
       [⟨i, .online⟩])
    else
      (ls, [])

/-- Modelled from the spec: the per-endpoint effect of the all-dead
recovery (§4.4): `alive = true`, `errors = 0`. -/
def reviveUp (u : Upstream) : Upstream :=
  { u with alive := true, errors := 0 }

/-- Modelled from the spec: all-dead recovery (§4.4): every endpoint is
revived atomically, `alive_count` becomes the number of endpoints, and
ONLINE is fired for each. -/
def reviveAllL (ls : UpstreamList) : UpstreamList × List WatchNotice :=
  ({ ls with ups := ls.ups.map reviveUp, alive_count := ls.ups.length },
   (List.range ls.ups.length).map (fun i => ⟨i, .online⟩))

/-- Apply an endpoint-level update at index `i` of a list (no-op when the
index is out of range). -/
def updateAt (ls : UpstreamList) (i : Nat) (f : Upstream → Upstream) : UpstreamList :=
  match ls.ups.get? i with
  | some u => { ls with ups := ls.ups.set i (f u) }
  | none => ls

/-- Modelled from the spec: `rspamd_upstream_set_weight`. -/
def rspamd_upstream_set_weight (u : Upstream) (w : Nat) : Upstream :=
  { u with weight := w }

/-- Modelled from the spec: `rspamd_upstream_set_data`; stores the opaque
user pointer and returns the previous one. -/
def rspamd_upstream_set_data (u : Upstream) (d : Option Nat) : Option Nat × Upstream :=
  (u.user, { u with user := d })

/-- Modelled from the spec: `rspamd_upstream_get_data`. -/
def rspamd_upstream_get_data (u : Upstream) : Option Nat :=
  u.user

/-- Modelled from the spec: `rspamd_upstream_add_addr`; the custom address
is appended to the address set (§4.7). -/
def rspamd_upstream_add_addr (u : Upstream) (a : Nat) : Upstream :=
  { u with addrs := u.addrs ++ [a] }

/-- Modelled from the spec: `rspamd_upstream_addr_cur` returns the address
under the cursor without advancing (§4.2); the argument is const in the
header, and accordingly the function has no state output. -/
def rspamd_upstream_addr_cur (u : Upstream) : Option Nat :=
  u.addrs.get? u.addr_cursor

/-- Modelled from the spec: `rspamd_upstream_addr_next` advances the
address cursor (internal rotation) and returns the address now under
it. -/
def rspamd_upstream_addr_next (u : Upstream) : Option Nat × Upstream :=
  let u1 := advanceAddrCursor u
  (rspamd_upstream_addr_cur u1, u1)

/-- The state part of `rspamd_upstream_addr_next`, for iteration. -/
def addrNextState (u : Upstream) : Upstream :=
  (rspamd_upstream_addr_next u).2

/-- Separator characters of the multi-endpoint line form (§4.1, §6): a
comma, a semicolon or whitespace. -/
def isSepChar (c : Char) : Bool :=
  c = ',' || c = ';' || c.isWhitespace

/-- Split a character sequence at every separator character, keeping
empty pieces; `acc` carries the (reversed) current piece. -/
def splitChars (sep : Char → Bool) : List Char → List Char → List (List Char)
  | [], acc => [acc.reverse]
  | c :: rest, acc =>
    if sep c then acc.reverse :: splitChars sep rest []
    else splitChars sep rest (c :: acc)

/-- The non-empty entries of a multi-endpoint line: splitting on every
separator character and dropping empty pieces handles any run of
separators (§4.1). -/
def lineTokens (s : String) : List (List Char) :=
  (splitChars isSepChar s.data []).filter (fun t => !t.isEmpty)

/-- Decimal digit-string parser used for the port and priority fields of
an endpoint entry. -/
def parseDigits (cs : List Char) : Option Nat :=
  if cs.isEmpty then none
  else if cs.all Char.isDigit then
    some (cs.foldl (fun a c => a * 10 + (c.toNat - 48)) 0)
  else none

/-- Modelled from the spec: parsing of one endpoint entry
`name[:port[:priority]]` (§4.1, §6): the port defaults to the
caller-supplied default and must fit 16 bits, the priority defaults to 0;
an empty name, a malformed numeric field or too many fields is a parse
failure.  Bracketed IPv6 literals are not modelled (no claim depends on
them); names are otherwise arbitrary non-empty labels. -/
def parseUpstreamToken (t : List Char) (def_port : Nat) : Option (String × Nat × Nat) :=
  match splitChars (fun c => c = ':') t [] with
  | [n] => if n.isEmpty then none else some (String.mk n, def_port, 0)
  | [n, p] =>
    if n.isEmpty then none
    else
      match parseDigits p with
      | some pv => if pv ≤ 65535 then some (String.mk n, pv, 0) else none
      | none => none
  | [n, p, pr] =>
    if n.isEmpty then none
    else
      match parseDigits p, parseDigits pr with
      | some pv, some prv => if pv ≤ 65535 then some (String.mk n, pv, prv) else none
      | _, _ => none
  | _ => none

/-- A freshly added endpoint (§3): alive, no errors, no window, default
weight 1, no addresses resolved yet, carrying the caller's user data. -/
def mkUpstream (pu : String × Nat × Nat) (data : Option Nat) : Upstream :=
  { name := pu.1, port := pu.2.1, priority := pu.2.2, weight := 1, errors := 0,
    window_start := none, revive_at := 0, alive := true, addrs := [],
    addr_cursor := 0, user := data }

/-- Modelled from the spec: `rspamd_upstreams_add_upstream`; a single
entry is parsed and, on success, appended to the list alive, with the
alive counter incremented.  Returns whether the upstream was added. -/
def rspamd_upstreams_add_upstream (ls : UpstreamList) (s : String) (def_port : Nat)
    (data : Option Nat) : Bool × UpstreamList :=
  match parseUpstreamToken s.data def_port with
  | none => (false, ls)
  | some pu =>
    (true, { ls with ups := ls.ups ++ [mkUpstream pu data],
                     alive_count := ls.alive_count + 1 })

/-- One step of the line parse: attempt one entry, accumulate whether any
entry succeeded so far. -/
def parseStep (def_port : Nat) (data : Option Nat) (acc : Bool × UpstreamList)
    (t : List Char) : Bool × UpstreamList :=
  let r := rspamd_upstreams_add_upstream acc.2 (String.mk t) def_port data
  (acc.1 || r.1, r.2)

/-- Modelled from the spec: `rspamd_upstreams_parse_line`; every entry of
the separated line is attempted independently and the call succeeds if
any entry was added (§4.1, header: "TRUE if **any** of upstreams has been
added"). -/
def rspamd_upstreams_parse_line (ls : UpstreamList) (s : String) (def_port : Nat)
    (data : Option Nat) : Bool × UpstreamList :=
  (lineTokens s).foldl (parseStep def_port data) (false, ls)

/-- Eligibility of index `i` for selection: the endpoint exists, is alive,
and is not the excluded one (§4.2: candidate set `{e : e.alive}`, minus
the exclusion of `get_except`, which applies even to a dead `e`). -/
def eligibleB (ups : List Upstream) (except : Option Nat) (i : Nat) : Bool :=
  match ups.get? i with
  | some u => u.alive && !(except == some i)
  | none => false

/-- The order in which a wrapping scan starting at `s` visits the indices
`0 .. n-1`. -/
def scanOrder (n s : Nat) : List Nat :=
  (List.range n).rotate s

/-- First eligible index at or after `start`, wrapping around the list. -/
def scanFrom (ups : List Upstream) (except : Option Nat) (start : Nat) : Option Nat :=
  (scanOrder ups.length (start % ups.length)).find? (eligibleB ups except)

/-- Modelled from the spec: round-robin selection (§4.2).  The scan starts
at the list's cursor and picks the first eligible endpoint; the cursor
then advances exactly once (§5).  The spec pins the weighted behaviour
only in the equal-weight case (strict rotation in insertion order), which
this cursor walk realises; the "roughly proportional" unequal-weight
interleaving is left abstract. -/
def rrSelect (ups : List Upstream) (cursor : Nat) (except : Option Nat) :
    Option (Nat × Nat) :=
  (scanFrom ups except cursor).map (fun i => (i, (cursor % ups.length + 1) % ups.length))

/-- Weight of the endpoint at index `i` (0 when out of range). -/
def weightOf (ups : List Upstream) (i : Nat) : Nat :=
  ((ups.get? i).map Upstream.weight).getD 0

/-- Eligible indices carrying a positive weight, for weighted-random
selection (§4.2: weight 0 is skipped by the weighted draw). -/
def weightedIdxs (ups : List Upstream) (except : Option Nat) : List Nat :=
  (List.range ups.length).filter (fun i => eligibleB ups except i && decide (0 < weightOf ups i))

/-- Total weight of the weighted candidates. -/
def totalWeight (ups : List Upstream) (except : Option Nat) : Nat :=
  ((weightedIdxs ups except).map (weightOf ups)).sum

/-- Walk the cumulative weights of the candidate indices and pick the one
under the draw `r`. -/
def pickWeighted (ups : List Upstream) : List Nat → Nat → Option Nat
  | [], _ => none
  | i :: t, r => if r < weightOf ups i then some i else pickWeighted ups t (r - weightOf ups i)

/-- Modelled from the spec: weighted random selection (§4.2): a weighted
draw over live positive-weight endpoints, the draw being the oracle
`rnd`; when every live candidate has weight 0 the unweighted fallback
picks the first live endpoint (§3: weight 0 is "skip for weighted
selection but still eligible for unweighted fallbacks"). -/
def randomSelect (ups : List Upstream) (except : Option Nat) (rnd : Nat) : Option Nat :=
  let tw := totalWeight ups except
  if 0 < tw then pickWeighted ups (weightedIdxs ups except) (rnd % tw)
  else scanFrom ups except 0

/-- Priority of the endpoint at index `i` (0 when out of range). -/
def prioOf (ups : List Upstream) (i : Nat) : Nat :=
  ((ups.get? i).map Upstream.priority).getD 0

/-- Fold picking the eligible index of maximal priority, first wins on
ties. -/
def msFold (ups : List Upstream) (acc : Option Nat) : List Nat → Option Nat
  | [] => acc
  | i :: t =>
    match acc with
    | none => msFold ups (some i) t
    | some b =>
      if prioOf ups b < prioOf ups i then msFold ups (some i) t
      else msFold ups (some b) t

/-- Modelled from the spec: master-slave selection (§4.2): the alive
endpoint of highest priority, ties broken by insertion order. -/
def msSelect (ups : List Upstream) (except : Option Nat) : Option Nat :=
  msFold ups none ((List.range ups.length).filter (eligibleB ups except))

/-- A selection key is missing when the caller passed a null pointer
(`none`) or a zero length (`some []`). -/
def keyMissing : Option (List Nat) → Bool
  | none => true
  | some k => k.isEmpty

/-- Modelled from the spec: the consistent-hash ring keyed by endpoint
name (§4.2) is abstracted to a deterministic hash of the caller's key
choosing a starting ring position; dead endpoints are skipped by walking
forward on the ring. -/
def hashKey (k : List Nat) : Nat :=
  k.foldl (fun h b => h * 31 + b) 5381

/-- Modelled from the spec: policy dispatch of the selector (§4.2).
Returns the chosen index and the new round-robin cursor.  A hashed
selection with a missing key falls back to round-robin for that call
(§4.2, §7); `undef` resolves to the context default (random). -/
def selectIdx (ups : List Upstream) (cursor : Nat) (rot : Rotation)
    (key : Option (List Nat)) (rnd : Nat) (except : Option Nat) : Option (Nat × Nat) :=
  match rot with
  | .round_robin => rrSelect ups cursor except
  | .hashed =>
    if keyMissing key then rrSelect ups cursor except
    else (scanFrom ups except (hashKey (key.getD []))).map (fun i => (i, cursor))
  | .sequential => (scanFrom ups except 0).map (fun i => (i, cursor))
  | .master_slave => (msSelect ups except).map (fun i => (i, cursor))
  | .random => (randomSelect ups except rnd).map (fun i => (i, cursor))
  | .undef => (randomSelect ups except rnd).map (fun i => (i, cursor))

/-- Advance the address cursor of the endpoint at index `i` (§4.2: after
choosing an endpoint the selector advances that endpoint's address
cursor). -/
def advanceAddrAt (ups : List Upstream) (i : Nat) : List Upstream :=
  match ups.get? i with
  | some u => ups.set i (advanceAddrCursor u)
  | none => ups

/-- The all-dead recovery step of selection (§4.4): when the cached alive
counter is zero every endpoint is revived first; otherwise nothing
happens and no notices fire. -/
def recover (ls : UpstreamList) : UpstreamList × List WatchNotice :=
  if ls.alive_count = 0 then reviveAllL ls else (ls, [])

/-- Modelled from the spec: the common part of the selector (§4.2, §7).
An empty list yields the none sentinel; a list with no live endpoint
first runs the all-dead recovery (§4.4); the policy then picks an index
among the eligible endpoints (retrying without the exclusion when it
emptied the candidate set), the round-robin cursor is stored back and the
chosen endpoint's address cursor advanced. -/
def getCommon (ls : UpstreamList) (rot : Rotation) (key : Option (List Nat))
    (rnd : Nat) (except : Option Nat) :
    Option Nat × UpstreamList × List WatchNotice :=
  if ls.ups.isEmpty then (none, ls, [])
  else
    let re := recover ls
    let r :=
      match selectIdx re.1.ups re.1.rr_cursor rot key rnd except with
      | some p => some p
      | none =>
        if except.isSome then selectIdx re.1.ups re.1.rr_cursor rot key rnd none
        else none
    match r with
    | none => (none, re.1, re.2)
    | some p =>
      (some p.1, { re.1 with ups := advanceAddrAt re.1.ups p.1, rr_cursor := p.2 }, re.2)

/-- The policy a plain `get` uses: the list's own policy unless it is
undefined, in which case the caller's default; a still-undefined policy
resolves to the context default (random). -/
def effectiveRot (ls : UpstreamList) (default_type : Rotation) : Rotation :=
  match ls.rot with
  | .undef => match default_type with | .undef => .random | d => d
  | r => r

/-- Modelled from the spec: `rspamd_upstream_get` (§4.2); `rnd` is the
randomness oracle for the random policy. -/
def rspamd_upstream_get (ls : UpstreamList) (default_type : Rotation)
    (key : Option (List Nat)) (rnd : Nat) :
    Option Nat × UpstreamList × List WatchNotice :=
  getCommon ls (effectiveRot ls default_type) key rnd none

/-- Modelled from the spec: `rspamd_upstream_get_forced` ignores the
list's policy and uses the caller's (§4.2). -/
def rspamd_upstream_get_forced (ls : UpstreamList) (forced_type : Rotation)
    (key : Option (List Nat)) (rnd : Nat) :
    Option Nat × UpstreamList × List WatchNotice :=
  getCommon ls (match forced_type with | .undef => .random | d => d) key rnd none

/-- Modelled from the spec: `rspamd_upstream_get_except` excludes the
endpoint at index `except` from the candidate set, even when it is dead
(§4.2, §9). -/
def rspamd_upstream_get_except (ls : UpstreamList) (except : Nat)
    (default_type : Rotation) (key : Option (List Nat)) (rnd : Nat) :
    Option Nat × UpstreamList × List WatchNotice :=
  getCommon ls (effectiveRot ls default_type) key rnd (some except)

/-- Indices of `k` successive plain `get` calls (with the list's own
policy, no key, zero randomness oracle), threading the list state. -/
def getSeq : UpstreamList → Nat → List Nat × UpstreamList
  | ls, 0 => ([], ls)
  | ls, k+1 =>
    let r := rspamd_upstream_get ls .undef none 0
    match r.1 with
    | none => ([], r.2.1)
    | some i =>
      let rest := getSeq r.2.1 k
      (i :: rest.1, rest.2)

/-- Modelled from the spec: the reachable list states (§3 lifecycle): a
list is created empty with context limits (a positive failure threshold,
§6) and evolves by configuration, parsing, the health state machine,
revival timer ticks, selections and per-endpooint updates.  Destruction
ends the lifecycle and leaves no state. -/
inductive Reachable : UpstreamList → Prop
  | create (lim : Limits) (h : 0 < lim.max_errors) :
      Reachable (rspamd_upstreams_create lim)
  | set_rot (ls : UpstreamList) (rot : Rotation) :
      Reachable ls → Reachable (rspamd_upstreams_set_rotation ls rot)
  | add (ls : UpstreamList) (s : String) (p : Nat) (d : Option Nat) :
      Reachable ls → Reachable (rspamd_upstreams_add_upstream ls s p d).2
  | parse (ls : UpstreamList) (s : String) (p : Nat) (d : Option Nat) :
      Reachable ls → Reachable (rspamd_upstreams_parse_line ls s p d).2
  | ok (ls : UpstreamList) (i : Nat) :
      Reachable ls → Reachable (rspamd_upstream_ok ls i).1
  | fail (ls : UpstreamList) (i : Nat) (af : Bool) (now : Nat) (jit : Int) :
      Reachable ls → Reachable (rspamd_upstream_fail ls i af now jit).1
  | revive (ls : UpstreamList) (i : Nat) (now : Nat) :
      Reachable ls → Reachable (rspamd_upstream_revive ls i now).1
  | get (ls : UpstreamList) (dt : Rotation) (key : Option (List Nat)) (rnd : Nat) :
      Reachable ls → Reachable (rspamd_upstream_get ls dt key rnd).2.1
  | get_forced (ls : UpstreamList) (ft : Rotation) (key : Option (List Nat)) (rnd : Nat) :
      Reachable ls → Reachable (rspamd_upstream_get_forced ls ft key rnd).2.1
  | get_exc (ls : UpstreamList) (e : Nat) (dt : Rotation) (key : Option (List Nat)) (rnd : Nat) :
      Reachable ls → Reachable (rspamd_upstream_get_except ls e dt key rnd).2.1
  | set_weight (ls : UpstreamList) (i : Nat) (w : Nat) :
      Reachable ls → Reachable (updateAt ls i (fun u => rspamd_upstream_set_weight u w))
  | set_user (ls : UpstreamList) (i : Nat) (d : Option Nat) :
      Reachable ls → Reachable (updateAt ls i (fun u => (rspamd_upstream_set_data u d).2))
  | addr_next (ls : UpstreamList) (i : Nat) :
      Reachable ls → Reachable (updateAt ls i addrNextState)
  | add_addr (ls : UpstreamList) (i : Nat) (a : Nat) :
      Reachable ls → Reachable (updateAt ls i (fun u => rspamd_upstream_add_addr u a))

/-- The master invariant of the engine (§3, §8): the failure threshold is
positive, the cached alive counter matches the number of live endpoints,
and every endpoint is below the failure threshold or dead. -/
def Inv (ls : UpstreamList) : Prop :=
  0 < ls.limits.max_errors ∧
  ls.alive_count = countAlive ls.ups ∧
  ∀ u ∈ ls.ups, u.errors < ls.limits.max_errors ∨ u.alive = false

theorem advanceAddrCursor_alive (u : Upstream) : (advanceAddrCursor u).alive = u.alive := by
  unfold advanceAddrCursor; split <;> rfl

theorem advanceAddrCursor_errors (u : Upstream) : (advanceAddrCursor u).errors = u.errors := by
  unfold advanceAddrCursor; split <;> rfl

theorem advanceAddrCursor_addrs (u : Upstream) : (advanceAddrCursor u).addrs = u.addrs := by
  unfold advanceAddrCursor; split <;> rfl

theorem get?_set_self {α : Type} (l : List α) (i : Nat) (a : α) (h : i < l.length) :
    (l.set i a).get? i = some a := by
  induction l generalizing i with
  | nil => simp at h
  | cons x t ih =>
    cases i with
    | zero => rfl
    | succ j => simpa using ih j (by simpa using h)

theorem get?_set_ne {α : Type} (l : List α) (i j : Nat) (a : α) (h : i ≠ j) :
    (l.set i a).get? j = l.get? j := by
  induction l generalizing i j with
  | nil => rfl
  | cons x t ih =>
    cases i with
    | zero =>
      cases j with
      | zero => exact absurd rfl h
      | succ m => rfl
    | succ n =>
      cases j with
      | zero => rfl
      | succ m =>
        simpa using ih n m (fun hc => h (by simp [hc]))

theorem countAlive_set (l : List Upstream) (i : Nat) (u u' : Upstream)
    (h : l.get? i = some u) :
    countAlive (l.set i u') + (if u.alive then 1 else 0)
      = countAlive l + (if u'.alive then 1 else 0) := by
  induction l generalizing i with
  | nil => simp at h
  | cons x t ih =>
    cases i with
    | zero =>
      simp only [List.get?] at h
      cases h
      simp [countAlive, List.set]
      omega
    | succ j =>
      simp only [List.get?] at h
      have := ih j h
      simp [countAlive, List.set]
      omega

theorem countAlive_pos (l : List Upstream) (i : Nat) (u : Upstream)
    (h : l.get? i = some u) (ha : u.alive = true) : 0 < countAlive l := by
  induction l generalizing i with
  | nil => simp at h
  | cons x t ih =>
    cases i with
    | zero =>
      simp only [List.get?] at h
      cases h
      simp [countAlive, ha]
    | succ j =>
      simp only [List.get?] at h
      have := ih j h
      simp [countAlive]
      omega

theorem countAlive_append (l1 l2 : List Upstream) :
    countAlive (l1 ++ l2) = countAlive l1 + countAlive l2 := by
  induction l1 with
  | nil => simp [countAlive]
  | cons x t ih => simp [countAlive, ih]; omega

theorem countAlive_map_revive (l : List Upstream) :
    countAlive (l.map reviveUp) = l.length := by
  induction l with
  | nil => rfl
  | cons x t ih => simp [countAlive, reviveUp, ih]; omega

theorem countAlive_exists (l : List Upstream) (h : 0 < countAlive l) :
    ∃ i u, l.get? i = some u ∧ u.alive = true := by
  induction l with
  | nil => simp [countAlive] at h
  | cons x t ih =>
    by_cases hx : x.alive = true
    · exact ⟨0, x, rfl, hx⟩
    · have : countAlive t > 0 := by
        simp [countAlive, hx] at h
        simpa [countAlive] using h
      obtain ⟨i, u, hg, hu⟩ := ih this
      exact ⟨i + 1, u, by simpa using hg, hu⟩

theorem countAlive_advanceAddrAt (l : List Upstream) (i : Nat) :
    countAlive (advanceAddrAt l i) = countAlive l := by
  unfold advanceAddrAt
  cases hg : l.get? i with
  | none => rfl
  | some u =>
    have hrec := countAlive_set l i u (advanceAddrCursor u) hg
    rw [advanceAddrCursor_alive] at hrec
    show countAlive (l.set i (advanceAddrCursor u)) = countAlive l
    omega

theorem mem_advanceAddrAt (l : List Upstream) (i : Nat) (v : Upstream)
    (h : v ∈ advanceAddrAt l i) : v ∈ l ∨ ∃ u ∈ l, v = advanceAddrCursor u := by
  unfold advanceAddrAt at h
  cases hg : l.get? i with
  | none => rw [hg] at h; exact Or.inl h
  | some u =>
    rw [hg] at h
    rcases List.mem_or_eq_of_mem_set h with hm | he
    · exact Or.inl hm
    · exact Or.inr ⟨u, List.get?_mem hg, he⟩

theorem bumpUp_alive (lim : Limits) (u : Upstream) (af : Bool) (now : Nat) :
    (bumpUp lim u af now).alive = u.alive := by
  simp only [bumpUp]
  split
  · rw [advanceAddrCursor_alive]
  · rfl

theorem bumpUp_errors (lim : Limits) (u : Upstream) (af : Bool) (now : Nat) :
    (bumpUp lim u af now).errors = (failWindow lim u now).2 := by
  simp only [bumpUp]
  split
  · rw [advanceAddrCursor_errors]
  · rfl

theorem killUp_alive (lim : Limits) (u : Upstream) (af : Bool) (now : Nat) (jit : Int) :
    (killUp lim u af now jit).alive = false := rfl

theorem killUp_revive_at (lim : Limits) (u : Upstream) (af : Bool) (now : Nat) (jit : Int) :
    (killUp lim u af now jit).revive_at = reviveAt lim now jit := rfl

theorem reviveAt_future (lim : Limits) (now : Nat) (jit : Int) :
    now < reviveAt lim now jit := by
  have h1 : (1 : Int) ≤ max 1 ((lim.revive_time : Int) + jit) := le_max_left _ _
  have h2 : (1 : Int).toNat ≤ (max 1 ((lim.revive_time : Int) + jit)).toNat :=
    Int.toNat_le_toNat h1
  simp only [reviveAt]
  omega

/-- Replacing a live endpoint by a dead one while decrementing the cached
counter preserves the invariant. -/
theorem inv_set_kill (ls : UpstreamList) (i : Nat) (u u' : Upstream)
    (hg : ls.ups.get? i = some u) (hal : u.alive = true) (ha' : u'.alive = false)
    (h : Inv ls) :
    Inv { ls with ups := ls.ups.set i u', alive_count := ls.alive_count - 1 } := by
  obtain ⟨hmax, hcnt, hinv⟩ := h
  refine ⟨hmax, ?_, ?_⟩
  · have hs := countAlive_set ls.ups i u u' hg
    rw [hal, ha'] at hs
    simp at hs
    have hpos : 0 < countAlive ls.ups := countAlive_pos ls.ups i u hg hal
    show ls.alive_count - 1 = countAlive (ls.ups.set i u')
    omega
  · intro v hv
    rcases List.mem_or_eq_of_mem_set hv with hm | he
    · exact hinv v hm
    · subst he; right; exact ha'

/-- Replacing an endpoint by one with the same liveness and in-bounds
errors preserves the invariant (the cached counter unchanged). -/
theorem inv_set_keep (ls : UpstreamList) (i : Nat) (u u' : Upstream)
    (hg : ls.ups.get? i = some u) (hsa : u'.alive = u.alive)
    (herr : u'.errors < ls.limits.max_errors ∨ u'.alive = false)
    (h : Inv ls) : Inv { ls with ups := ls.ups.set i u' } := by
  obtain ⟨hmax, hcnt, hinv⟩ := h
  refine ⟨hmax, ?_, ?_⟩
  · have hs := countAlive_set ls.ups i u u' hg
    rw [hsa] at hs
    show ls.alive_count = countAlive (ls.ups.set i u')
    omega
  · intro v hv
    rcases List.mem_or_eq_of_mem_set hv with hm | he
    · exact hinv v hm
    · subst he; exact herr

/-- Replacing a dead endpoint by a live one with no errors while
incrementing the cached counter preserves the invariant. -/
theorem inv_set_wake (ls : UpstreamList) (i : Nat) (u u' : Upstream)
    (hg : ls.ups.get? i = some u) (hal : u.alive = false) (ha' : u'.alive = true)
    (herr : u'.errors = 0) (h : Inv ls) :
    Inv { ls with ups := ls.ups.set i u', alive_count := ls.alive_count + 1 } := by
  obtain ⟨hmax, hcnt, hinv⟩ := h
  refine ⟨hmax, ?_, ?_⟩
  · have hs := countAlive_set ls.ups i u u' hg
    rw [hal, ha'] at hs
    simp at hs
    show ls.alive_count + 1 = countAlive (ls.ups.set i u')
    omega
  · intro v hv
    rcases List.mem_or_eq_of_mem_set hv with hm | he
    · exact hinv v hm
    · left
      show v.errors < ls.limits.max_errors
      rw [he, herr]
      exact hmax

theorem inv_ok (ls : UpstreamList) (i : Nat) (h : Inv ls) :
    Inv (rspamd_upstream_ok ls i).1 := by
  simp only [rspamd_upstream_ok]
  split
  · exact h
  · rename_i u hg
    split
    · rename_i hal
      exact inv_set_keep ls i u (okUp u) hg (by simp [okUp, hal]) (Or.inl h.1) h
    · exact h

theorem inv_fail (ls : UpstreamList) (i : Nat) (af : Bool) (now : Nat) (jit : Int)
    (h : Inv ls) : Inv (rspamd_upstream_fail ls i af now jit).1 := by
  simp only [rspamd_upstream_fail]
  split
  · exact h
  · rename_i u hg
    split
    · rename_i hal
      split
      · rename_i hd
        exact inv_set_kill ls i u (killUp ls.limits u af now jit) hg hal
          (killUp_alive ls.limits u af now jit) h
      · rename_i hd
        refine inv_set_keep ls i u (bumpUp ls.limits u af now) hg ?_ ?_ h
        · rw [bumpUp_alive]
        · left; rw [bumpUp_errors]; omega
    · exact h

theorem inv_revive (ls : UpstreamList) (i : Nat) (now : Nat) (h : Inv ls) :
    Inv (rspamd_upstream_revive ls i now).1 := by
  simp only [rspamd_upstream_revive]
  split
  · exact h
  · rename_i u hg
    split
    · rename_i hc
      exact inv_set_wake ls i u (wakeUp u) hg hc.1 rfl rfl h
    · exact h

theorem inv_reviveAll (ls : UpstreamList) (h : Inv ls) : Inv (reviveAllL ls).1 := by
  obtain ⟨hmax, hcnt, hinv⟩ := h
  refine ⟨hmax, ?_, ?_⟩
  · simp [reviveAllL, countAlive_map_revive]
  · intro v hv
    simp only [reviveAllL] at hv
    rcases List.mem_map.mp hv with ⟨u, _, he⟩
    subst he
    left
    simpa [reviveUp] using hmax

theorem inv_updateAt (ls : UpstreamList) (i : Nat) (f : Upstream → Upstream)
    (hf : ∀ u, (f u).alive = u.alive ∧ (f u).errors = u.errors)
    (h : Inv ls) : Inv (updateAt ls i f) := by
  obtain ⟨hmax, hcnt, hinv⟩ := h
  simp only [updateAt]
  cases hg : ls.ups.get? i with
  | none => exact ⟨hmax, hcnt, hinv⟩
  | some u =>
    refine ⟨hmax, ?_, ?_⟩
    · have hs := countAlive_set ls.ups i u (f u) hg
      rw [(hf u).1] at hs
      simp only [hcnt]
      omega
    · intro v hv
      rcases List.mem_or_eq_of_mem_set hv with hm | he
      · exact hinv v hm
      · subst he
        rcases hinv u (List.get?_mem hg) with he | ha
        · left; rw [(hf u).2]; exact he
        · right; rw [(hf u).1]; exact ha

theorem inv_add (ls : UpstreamList) (s : String) (p : Nat) (d : Option Nat)
    (h : Inv ls) : Inv (rspamd_upstreams_add_upstream ls s p d).2 := by
  obtain ⟨hmax, hcnt, hinv⟩ := h
  simp only [rspamd_upstreams_add_upstream]
  cases hp : parseUpstreamToken s.data p with
  | none => exact ⟨hmax, hcnt, hinv⟩
  | some pu =>
    refine ⟨hmax, ?_, ?_⟩
    · simp [countAlive_append, countAlive, mkUpstream, hcnt]
    · intro v hv
      rcases List.mem_append.mp hv with hm | hm
      · exact hinv v hm
      · simp only [List.mem_singleton] at hm
        subst hm
        left
        simpa [mkUpstream] using hmax

theorem inv_parse_fold (toks : List (List Char)) (p : Nat) (d : Option Nat)
    (acc : Bool × UpstreamList) (h : Inv acc.2) :
    Inv (toks.foldl (parseStep p d) acc).2 := by
  induction toks generalizing acc with
  | nil => exact h
  | cons t ts ih =>
    simp only [List.foldl_cons]
    exact ih (parseStep p d acc t) (inv_add acc.2 (String.mk t) p d h)

theorem inv_parse (ls : UpstreamList) (s : String) (p : Nat) (d : Option Nat)
    (h : Inv ls) : Inv (rspamd_upstreams_parse_line ls s p d).2 :=
  inv_parse_fold (lineTokens s) p d (false, ls) h

/-- Advancing one endpoint's address cursor and storing a new round-robin
cursor preserves the invariant. -/
theorem inv_withAddrCursor (ls : UpstreamList) (i c : Nat) (h : Inv ls) :
    Inv { ls with ups := advanceAddrAt ls.ups i, rr_cursor := c } := by
  obtain ⟨hmax, hcnt, hinv⟩ := h
  refine ⟨hmax, ?_, ?_⟩
  · show ls.alive_count = countAlive (advanceAddrAt ls.ups i)
    rw [countAlive_advanceAddrAt]
    exact hcnt
  · intro v hv
    rcases mem_advanceAddrAt ls.ups i v hv with hm | ⟨u, hu, he⟩
    · exact hinv v hm
    · rcases hinv u hu with h1 | h2
      · left
        show v.errors < ls.limits.max_errors
        rw [he, advanceAddrCursor_errors]
        exact h1
      · right
        rw [he, advanceAddrCursor_alive]
        exact h2

theorem inv_recover (ls : UpstreamList) (h : Inv ls) : Inv (recover ls).1 := by
  unfold recover
  split
  · exact inv_reviveAll ls h
  · exact h

theorem inv_getCommon (ls : UpstreamList) (rot : Rotation) (key : Option (List Nat))
    (rnd : Nat) (except : Option Nat) (h : Inv ls) :
    Inv (getCommon ls rot key rnd except).2.1 := by
  simp only [getCommon]
  split
  · exact h
  · split
    · exact inv_recover ls h
    · rename_i p hp
      exact inv_withAddrCursor (recover ls).1 p.1 p.2 (inv_recover ls h)

/-- Every reachable list state satisfies the master invariant. -/
theorem inv_of_reachable (ls : UpstreamList) (h : Reachable ls) : Inv ls := by
  induction h with
  | create lim hm =>
    refine ⟨hm, rfl, ?_⟩
    intro u hu
    simp [rspamd_upstreams_create] at hu
  | set_rot ls rot hr ih => exact ⟨ih.1, ih.2.1, ih.2.2⟩
  | add ls s p d hr ih => exact inv_add ls s p d ih
  | parse ls s p d hr ih => exact inv_parse ls s p d ih
  | ok ls i hr ih => exact inv_ok ls i ih
  | fail ls i af now jit hr ih => exact inv_fail ls i af now jit ih
  | revive ls i now hr ih => exact inv_revive ls i now ih
  | get ls dt key rnd hr ih => exact inv_getCommon ls (effectiveRot ls dt) key rnd none ih
  | get_forced ls ft key rnd hr ih =>
    exact inv_getCommon ls (match ft with | .undef => .random | d => d) key rnd none ih
  | get_exc ls e dt key rnd hr ih =>
    exact inv_getCommon ls (effectiveRot ls dt) key rnd (some e) ih
  | set_weight ls i w hr ih => exact inv_updateAt ls i _ (fun u => ⟨rfl, rfl⟩) ih
  | set_user ls i d hr ih => exact inv_updateAt ls i _ (fun u => ⟨rfl, rfl⟩) ih
  | addr_next ls i hr ih =>
    exact inv_updateAt ls i addrNextState
      (fun u => ⟨advanceAddrCursor_alive u, advanceAddrCursor_errors u⟩) ih
  | add_addr ls i a hr ih => exact inv_updateAt ls i _ (fun u => ⟨rfl, rfl⟩) ih

theorem lt_of_get?_some {α : Type} (l : List α) (i : Nat) (a : α)
    (h : l.get? i = some a) : i < l.length := by
  by_contra hn
  rw [List.get?_eq_none.mpr (Nat.le_of_not_lt hn)] at h
  exact Option.noConfusion h

theorem eligibleB_spec (ups : List Upstream) (except : Option Nat) (i : Nat)
    (h : eligibleB ups except i = true) :
    i < ups.length ∧ ∃ u, ups.get? i = some u ∧ u.alive = true ∧ except ≠ some i := by
  unfold eligibleB at h
  cases hg : ups.get? i with
  | none => rw [hg] at h; exact Bool.noConfusion h
  | some u =>
    rw [hg] at h
    simp only [Bool.and_eq_true, Bool.not_eq_true] at h
    refine ⟨lt_of_get?_some ups i u hg, u, rfl, h.1, ?_⟩
    intro hc
    rw [hc] at h
    simp at h

theorem eligibleB_of (ups : List Upstream) (except : Option Nat) (i : Nat)
    (u : Upstream) (hg : ups.get? i = some u) (hal : u.alive = true)
    (hx : except ≠ some i) : eligibleB ups except i = true := by
  unfold eligibleB
  rw [hg]
  show (u.alive && !(except == some i)) = true
  rw [hal]
  simpa using hx

theorem mem_scanOrder (n s i : Nat) : i ∈ scanOrder n s ↔ i < n := by
  unfold scanOrder
  rw [List.mem_rotate, List.mem_range]

theorem scanFrom_some (ups : List Upstream) (except : Option Nat) (start i : Nat)
    (h : scanFrom ups except start = some i) : eligibleB ups except i = true :=
  List.find?_some h

theorem scanFrom_isSome (ups : List Upstream) (except : Option Nat) (start j : Nat)
    (h : eligibleB ups except j = true) : (scanFrom ups except start).isSome := by
  unfold scanFrom
  rw [List.find?_isSome]
  exact ⟨j, (mem_scanOrder _ _ j).mpr (eligibleB_spec ups except j h).1, h⟩

theorem scanFrom_self (ups : List Upstream) (except : Option Nat) (start : Nat)
    (hn : 0 < ups.length)
    (h : eligibleB ups except (start % ups.length) = true) :
    scanFrom ups except start = some (start % ups.length) := by
  unfold scanFrom scanOrder
  have hlt : start % ups.length < ups.length := Nat.mod_lt start hn
  have hle : start % ups.length ≤ (List.range ups.length).length := by
    simp; omega
  rw [List.rotate_eq_drop_append_take hle]
  have hlt2 : start % ups.length < (List.range ups.length).length := by simpa using hlt
  rw [List.drop_eq_getElem_cons hlt2]
  have hget : (List.range ups.length)[start % ups.length] = start % ups.length := by
    simp
  rw [hget]
  rw [List.cons_append]
  rw [List.find?_cons_of_pos _ h]

theorem msFold_mem (ups : List Upstream) (l : List Nat) (acc : Option Nat) (i : Nat)
    (h : msFold ups acc l = some i) : acc = some i ∨ i ∈ l := by
  induction l generalizing acc with
  | nil => exact Or.inl h
  | cons x t ih =>
    cases acc with
    | none =>
      simp only [msFold] at h
      rcases ih (some x) h with hx | ht
      · right; rw [Option.some.injEq] at hx; simp [hx]
      · right; simp [ht]
    | some b =>
      simp only [msFold] at h
      by_cases hc : prioOf ups b < prioOf ups x
      · rw [if_pos hc] at h
        rcases ih (some x) h with hx | ht
        · right; rw [Option.some.injEq] at hx; simp [hx]
        · right; simp [ht]
      · rw [if_neg hc] at h
        rcases ih (some b) h with hb | ht
        · exact Or.inl hb
        · right; simp [ht]

theorem msFold_isSome (ups : List Upstream) (l : List Nat) (acc : Option Nat)
    (h : acc.isSome ∨ l ≠ []) : (msFold ups acc l).isSome := by
  induction l generalizing acc with
  | nil =>
    rcases h with hs | hne
    · exact hs
    · exact absurd rfl hne
  | cons x t ih =>
    cases acc with
    | none =>
      simp only [msFold]
      exact ih (some x) (Or.inl rfl)
    | some b =>
      simp only [msFold]
      by_cases hc : prioOf ups b < prioOf ups x
      · rw [if_pos hc]; exact ih (some x) (Or.inl rfl)
      · rw [if_neg hc]; exact ih (some b) (Or.inl rfl)

theorem msSelect_some (ups : List Upstream) (except : Option Nat) (i : Nat)
    (h : msSelect ups except = some i) : eligibleB ups except i = true := by
  unfold msSelect at h
  rcases msFold_mem ups _ none i h with hc | hm
  · exact Option.noConfusion hc
  · exact (List.mem_filter.mp hm).2

theorem msSelect_isSome (ups : List Upstream) (except : Option Nat) (j : Nat)
    (h : eligibleB ups except j = true) : (msSelect ups except).isSome := by
  unfold msSelect
  refine msFold_isSome ups _ none (Or.inr ?_)
  intro hc
  have hj : j ∈ (List.range ups.length).filter (eligibleB ups except) := by
    rw [List.mem_filter, List.mem_range]
    exact ⟨(eligibleB_spec ups except j h).1, h⟩
  rw [hc] at hj
  exact List.not_mem_nil j hj

theorem pickWeighted_mem (ups : List Upstream) (l : List Nat) (r i : Nat)
    (h : pickWeighted ups l r = some i) : i ∈ l := by
  induction l generalizing r with
  | nil => exact Option.noConfusion h
  | cons x t ih =>
    simp only [pickWeighted] at h
    by_cases hc : r < weightOf ups x
    · rw [if_pos hc] at h
      rw [Option.some.injEq] at h
      simp [h]
    · rw [if_neg hc] at h
      simp [ih _ h]

theorem pickWeighted_isSome (ups : List Upstream) (l : List Nat) (r : Nat)
    (h : r < (l.map (weightOf ups)).sum) : (pickWeighted ups l r).isSome := by
  induction l generalizing r with
  | nil => simp at h
  | cons x t ih =>
    simp only [pickWeighted]
    by_cases hc : r < weightOf ups x
    · rw [if_pos hc]; rfl
    · rw [if_neg hc]
      refine ih (r - weightOf ups x) ?_
      simp only [List.map_cons, List.sum_cons] at h
      omega

theorem randomSelect_some (ups : List Upstream) (except : Option Nat) (rnd i : Nat)
    (h : randomSelect ups except rnd = some i) : eligibleB ups except i = true := by
  unfold randomSelect at h
  by_cases hc : 0 < totalWeight ups except
  · rw [if_pos hc] at h
    have hm := pickWeighted_mem ups _ _ i h
    have := (List.mem_filter.mp hm).2
    simp only [Bool.and_eq_true] at this
    exact this.1
  · rw [if_neg hc] at h
    exact scanFrom_some ups except 0 i h

theorem randomSelect_isSome (ups : List Upstream) (except : Option Nat) (rnd j : Nat)
    (h : eligibleB ups except j = true) : (randomSelect ups except rnd).isSome := by
  unfold randomSelect
  by_cases hc : 0 < totalWeight ups except
  · rw [if_pos hc]
    refine pickWeighted_isSome ups _ _ ?_
    have : totalWeight ups except = ((weightedIdxs ups except).map (weightOf ups)).sum := rfl
    rw [this] at hc
    exact Nat.lt_of_lt_of_le (Nat.mod_lt rnd (by rw [← this] at hc; exact hc)) (le_refl _)
  · rw [if_neg hc]
    exact scanFrom_isSome ups except 0 j h

theorem rrSelect_some (ups : List Upstream) (cursor : Nat) (except : Option Nat)
    (p : Nat × Nat) (h : rrSelect ups cursor except = some p) :
    eligibleB ups except p.1 = true := by
  unfold rrSelect at h
  cases hs : scanFrom ups except cursor with
  | none => rw [hs] at h; exact Option.noConfusion h
  | some i =>
    rw [hs, Option.map_some', Option.some.injEq] at h
    rw [← h]
    exact scanFrom_some ups except cursor i hs

theorem rrSelect_isSome (ups : List Upstream) (cursor : Nat) (except : Option Nat)
    (j : Nat) (h : eligibleB ups except j = true) :
    (rrSelect ups cursor except).isSome := by
  unfold rrSelect
  rw [Option.isSome_map']
  exact scanFrom_isSome ups except cursor j h

theorem selectIdx_eligible (ups : List Upstream) (cursor : Nat) (rot : Rotation)
    (key : Option (List Nat)) (rnd : Nat) (except : Option Nat) (p : Nat × Nat)
    (h : selectIdx ups cursor rot key rnd except = some p) :
    eligibleB ups except p.1 = true := by
  cases rot with
  | round_robin =>
    simp only [selectIdx] at h
    exact rrSelect_some ups cursor except p h
  | hashed =>
    simp only [selectIdx] at h
    by_cases hk : keyMissing key = true
    · rw [if_pos hk] at h
      exact rrSelect_some ups cursor except p h
    · rw [if_neg hk] at h
      cases hs : scanFrom ups except (hashKey (key.getD [])) with
      | none => rw [hs] at h; exact Option.noConfusion h
      | some i =>
        rw [hs, Option.map_some', Option.some.injEq] at h
        rw [← h]
        exact scanFrom_some ups except _ i hs
  | sequential =>
    simp only [selectIdx] at h
    cases hs : scanFrom ups except 0 with
    | none => rw [hs] at h; exact Option.noConfusion h
    | some i =>
      rw [hs, Option.map_some', Option.some.injEq] at h
      rw [← h]
      exact scanFrom_some ups except 0 i hs
  | master_slave =>
    simp only [selectIdx] at h
    cases hs : msSelect ups except with
    | none => rw [hs] at h; exact Option.noConfusion h
    | some i =>
      rw [hs, Option.map_some', Option.some.injEq] at h
      rw [← h]
      exact msSelect_some ups except i hs
  | random =>
    simp only [selectIdx] at h
    cases hs : randomSelect ups except rnd with
    | none => rw [hs] at h; exact Option.noConfusion h
    | some i =>
      rw [hs, Option.map_some', Option.some.injEq] at h
      rw [← h]
      exact randomSelect_some ups except rnd i hs
  | undef =>
    simp only [selectIdx] at h
    cases hs : randomSelect ups except rnd with
    | none => rw [hs] at h; exact Option.noConfusion h
    | some i =>
      rw [hs, Option.map_some', Option.some.injEq] at h
      rw [← h]
      exact randomSelect_some ups except rnd i hs

theorem selectIdx_isSome (ups : List Upstream) (cursor : Nat) (rot : Rotation)
    (key : Option (List Nat)) (rnd : Nat) (except : Option Nat) (j : Nat)
    (h : eligibleB ups except j = true) :
    (selectIdx ups cursor rot key rnd except).isSome := by
  cases rot with
  | round_robin =>
    simp only [selectIdx]
    exact rrSelect_isSome ups cursor except j h
  | hashed =>
    simp only [selectIdx]
    by_cases hk : keyMissing key = true
    · rw [if_pos hk]
      exact rrSelect_isSome ups cursor except j h
    · rw [if_neg hk]
      rw [Option.isSome_map']
      exact scanFrom_isSome ups except _ j h
  | sequential =>
    simp only [selectIdx]
    rw [Option.isSome_map']
    exact scanFrom_isSome ups except 0 j h
  | master_slave =>
    simp only [selectIdx]
    rw [Option.isSome_map']
    exact msSelect_isSome ups except j h
  | random =>
    simp only [selectIdx]
    rw [Option.isSome_map']
    exact randomSelect_isSome ups except rnd j h
  | undef =>
    simp only [selectIdx]
    rw [Option.isSome_map']
    exact randomSelect_isSome ups except rnd j h

theorem recover_of_alive (ls : UpstreamList) (h : ls.alive_count ≠ 0) :
    recover ls = (ls, []) := by
  unfold recover
  rw [if_neg h]

theorem recover_of_dead (ls : UpstreamList) (h : ls.alive_count = 0) :
    recover ls = reviveAllL ls := by
  unfold recover
  rw [if_pos h]

theorem reviveUp_addrs (u : Upstream) : (reviveUp u).addrs = u.addrs := rfl

theorem reviveUp_addr_cursor (u : Upstream) : (reviveUp u).addr_cursor = u.addr_cursor := rfl

theorem eligibleB_weaken (ups : List Upstream) (e i : Nat)
    (h : eligibleB ups (some e) i = true) : eligibleB ups none i = true := by
  obtain ⟨hlt, u, hg, hal, hx⟩ := eligibleB_spec ups (some e) i h
  exact eligibleB_of ups none i u hg hal (by simp)

theorem recover_eligible (ls : UpstreamList) (h : Inv ls) (hne : ls.ups ≠ []) :
    ∃ j, eligibleB (recover ls).1.ups none j = true := by
  by_cases hz : ls.alive_count = 0
  · rw [recover_of_dead ls hz]
    cases hl : ls.ups with
    | nil => exact absurd hl hne
    | cons x t =>
      refine ⟨0, eligibleB_of _ none 0 (reviveUp x) ?_ rfl (by simp)⟩
      show (ls.ups.map reviveUp).get? 0 = some (reviveUp x)
      rw [hl]
      rfl
  · rw [recover_of_alive ls hz]
    obtain ⟨hmax, hcnt, _⟩ := h
    have hca : 0 < countAlive ls.ups := by omega
    obtain ⟨i, u, hg, hu⟩ := countAlive_exists ls.ups hca
    exact ⟨i, eligibleB_of ls.ups none i u hg hu (by simp)⟩

theorem getCommon_empty (ls : UpstreamList) (rot : Rotation) (key : Option (List Nat))
    (rnd : Nat) (except : Option Nat) (h : ls.ups = []) :
    getCommon ls rot key rnd except = (none, ls, []) := by
  simp only [getCommon]
  rw [if_pos (List.isEmpty_iff.mpr h)]

theorem getCommon_eq (ls : UpstreamList) (rot : Rotation) (key : Option (List Nat))
    (rnd : Nat) (except : Option Nat) (p : Nat × Nat) (hne : ls.ups ≠ [])
    (hsel : selectIdx (recover ls).1.ups (recover ls).1.rr_cursor rot key rnd except
              = some p) :
    getCommon ls rot key rnd except =
      (some p.1,
       { (recover ls).1 with
           ups := advanceAddrAt (recover ls).1.ups p.1, rr_cursor := p.2 },
       (recover ls).2) := by
  simp only [getCommon]
  rw [if_neg (fun hc => hne (List.isEmpty_iff.mp hc))]
  rw [hsel]

theorem getCommon_fallback_eq (ls : UpstreamList) (rot : Rotation)
    (key : Option (List Nat)) (rnd : Nat) (e : Nat) (p : Nat × Nat) (hne : ls.ups ≠ [])
    (hsel : selectIdx (recover ls).1.ups (recover ls).1.rr_cursor rot key rnd (some e)
              = none)
    (hsel2 : selectIdx (recover ls).1.ups (recover ls).1.rr_cursor rot key rnd none
              = some p) :
    getCommon ls rot key rnd (some e) =
      (some p.1,
       { (recover ls).1 with
           ups := advanceAddrAt (recover ls).1.ups p.1, rr_cursor := p.2 },
       (recover ls).2) := by
  simp only [getCommon]
  rw [if_neg (fun hc => hne (List.isEmpty_iff.mp hc))]
  rw [hsel]
  simp only [Option.isSome_some, if_true]
  rw [hsel2]

theorem getCommon_none_none (ls : UpstreamList) (rot : Rotation)
    (key : Option (List Nat)) (rnd : Nat) (hne : ls.ups ≠ [])
    (hsel : selectIdx (recover ls).1.ups (recover ls).1.rr_cursor rot key rnd none
              = none) :
    getCommon ls rot key rnd none = (none, (recover ls).1, (recover ls).2) := by
  simp only [getCommon]
  rw [if_neg (fun hc => hne (List.isEmpty_iff.mp hc))]
  rw [hsel]
  simp only [Option.isSome_none, Bool.false_eq_true, if_false]

theorem getCommon_fallback_none (ls : UpstreamList) (rot : Rotation)
    (key : Option (List Nat)) (rnd : Nat) (e : Nat) (hne : ls.ups ≠ [])
    (hsel : selectIdx (recover ls).1.ups (recover ls).1.rr_cursor rot key rnd (some e)
              = none)
    (hsel2 : selectIdx (recover ls).1.ups (recover ls).1.rr_cursor rot key rnd none
              = none) :
    getCommon ls rot key rnd (some e) = (none, (recover ls).1, (recover ls).2) := by
  simp only [getCommon]
  rw [if_neg (fun hc => hne (List.isEmpty_iff.mp hc))]
  rw [hsel]
  simp only [Option.isSome_some, if_true]
  rw [hsel2]

/-- Any successful selection comes from a `selectIdx` call (with the
caller's exclusion, or without it in the fallback) and yields the chosen
index, an updated round-robin cursor and the chosen endpoint's address
cursor advanced. -/
theorem getCommon_some_spec (ls : UpstreamList) (rot : Rotation)
    (key : Option (List Nat)) (rnd : Nat) (except : Option Nat) (i : Nat)
    (h : (getCommon ls rot key rnd except).1 = some i) :
    ∃ p : Nat × Nat, p.1 = i ∧
      eligibleB (recover ls).1.ups none i = true ∧
      getCommon ls rot key rnd except =
        (some i,
         { (recover ls).1 with
             ups := advanceAddrAt (recover ls).1.ups i, rr_cursor := p.2 },
         (recover ls).2) := by
  by_cases hne : ls.ups = []
  · rw [getCommon_empty ls rot key rnd except hne] at h
    exact Option.noConfusion h
  · cases hsel : selectIdx (recover ls).1.ups (recover ls).1.rr_cursor rot key rnd except with
    | some p =>
      have heq := getCommon_eq ls rot key rnd except p hne hsel
      rw [heq] at h
      simp only [Option.some.injEq] at h
      refine ⟨p, h, ?_, ?_⟩
      · rw [← h]
        have he := selectIdx_eligible _ _ rot key rnd except p hsel
        cases except with
        | none => exact he
        | some e => exact eligibleB_weaken _ e p.1 he
      · rw [heq, h]
    | none =>
      cases hx : except with
      | none =>
        rw [hx] at hsel h
        rw [getCommon_none_none ls rot key rnd hne hsel] at h
        exact Option.noConfusion h
      | some e =>
        rw [hx] at hsel h
        cases hsel2 : selectIdx (recover ls).1.ups (recover ls).1.rr_cursor rot key rnd none with
        | none =>
          rw [getCommon_fallback_none ls rot key rnd e hne hsel hsel2] at h
          exact Option.noConfusion h
        | some p =>
          have heq := getCommon_fallback_eq ls rot key rnd e p hne hsel hsel2
          rw [heq] at h
          simp only [Option.some.injEq] at h
          refine ⟨p, h, ?_, ?_⟩
          · rw [← h]
            exact selectIdx_eligible _ _ rot key rnd none p hsel2
          · rw [heq, h]

theorem getCommon_isSome (ls : UpstreamList) (rot : Rotation) (key : Option (List Nat))
    (rnd : Nat) (except : Option Nat) (j : Nat) (hne : ls.ups ≠ [])
    (hj : eligibleB (recover ls).1.ups except j = true) :
    ((getCommon ls rot key rnd except).1).isSome = true := by
  have hs := selectIdx_isSome (recover ls).1.ups (recover ls).1.rr_cursor rot key rnd except j hj
  obtain ⟨p, hp⟩ := Option.isSome_iff_exists.mp hs
  rw [getCommon_eq ls rot key rnd except p hne hp]
  rfl

theorem fail_eq_kill (ls : UpstreamList) (i : Nat) (u : Upstream) (af : Bool)
    (now : Nat) (jit : Int) (hg : ls.ups.get? i = some u) (hal : u.alive = true)
    (hd : ls.limits.max_errors ≤ (failWindow ls.limits u now).2) :
    rspamd_upstream_fail ls i af now jit =
      ({ ls with
           ups := ls.ups.set i (killUp ls.limits u af now jit),
           alive_count := ls.alive_count - 1 },
       [⟨i, .failure⟩, ⟨i, .offline⟩]) := by
  simp only [rspamd_upstream_fail]
  rw [hg]
  simp [hal, hd]

theorem fail_eq_dead (ls : UpstreamList) (i : Nat) (u : Upstream) (af : Bool)
    (now : Nat) (jit : Int) (hg : ls.ups.get? i = some u) (hal : u.alive = false) :
    rspamd_upstream_fail ls i af now jit = (ls, [⟨i, .failure⟩]) := by
  simp only [rspamd_upstream_fail]
  rw [hg]
  simp [hal]

theorem ok_eq_alive (ls : UpstreamList) (i : Nat) (u : Upstream)
    (hg : ls.ups.get? i = some u) (hal : u.alive = true) :
    rspamd_upstream_ok ls i =
      ({ ls with ups := ls.ups.set i (okUp u) }, [⟨i, .success⟩]) := by
  simp only [rspamd_upstream_ok]
  rw [hg]
  simp [hal]

theorem countAlive_all (l : List Upstream) (h : ∀ u ∈ l, u.alive = true) :
    countAlive l = l.length := by
  induction l with
  | nil => rfl
  | cons x t ih =>
    simp only [countAlive, h x (by simp), if_true, List.length_cons]
    rw [ih (fun u hu => h u (by simp [hu]))]
    omega

theorem selectIdx_hashed_missing (ups : List Upstream) (cursor : Nat)
    (key : Option (List Nat)) (rnd : Nat) (except : Option Nat)
    (hk : keyMissing key = true) :
    selectIdx ups cursor .hashed key rnd except
      = selectIdx ups cursor .round_robin none 0 except := by
  simp only [selectIdx]
  rw [if_pos hk]

theorem recover_get? (ls : UpstreamList) (i : Nat) (v : Upstream)
    (hg : ls.ups.get? i = some v) :
    (recover ls).1.ups.get? i = some v ∨
    (recover ls).1.ups.get? i = some (reviveUp v) := by
  unfold recover
  split
  · right
    show (ls.ups.map reviveUp).get? i = some (reviveUp v)
    rw [List.get?_map, hg]
    rfl
  · exact Or.inl hg

theorem advanceAddrAt_get? (l : List Upstream) (i : Nat) (u : Upstream)
    (hg : l.get? i = some u) :
    (advanceAddrAt l i).get? i = some (advanceAddrCursor u) := by
  unfold advanceAddrAt
  rw [hg]
  exact get?_set_self l i (advanceAddrCursor u) (lt_of_get?_some l i u hg)

theorem advanceAddrCursor_congr (v w : Upstream) (ha : v.addrs = w.addrs)
    (hc : v.addr_cursor = w.addr_cursor) :
    (advanceAddrCursor v).addr_cursor = (advanceAddrCursor w).addr_cursor := by
  unfold advanceAddrCursor
  rw [ha, hc]
  split
  · exact hc
  · rfl

theorem addrNextState_addrs (u : Upstream) : (addrNextState u).addrs = u.addrs :=
  advanceAddrCursor_addrs u

theorem iterate_addrNextState_addrs (u : Upstream) (k : Nat) :
    (addrNextState^[k] u).addrs = u.addrs := by
  induction k with
  | zero => rfl
  | succ n ih =>
    rw [Function.iterate_succ_apply']
    rw [addrNextState_addrs]
    exact ih

theorem iterate_addrNextState_cursor (u : Upstream)
    (hc : u.addr_cursor < u.addrs.length) (k : Nat) :
    (addrNextState^[k] u).addr_cursor = (u.addr_cursor + k) % u.addrs.length := by
  have hlen : 0 < u.addrs.length := Nat.lt_of_le_of_lt (Nat.zero_le _) hc
  induction k with
  | zero =>
    simp only [Function.iterate_zero, id_eq, Nat.add_zero]
    exact (Nat.mod_eq_of_lt hc).symm
  | succ n ih =>
    rw [Function.iterate_succ_apply']
    have haddr : (addrNextState^[n] u).addrs = u.addrs := iterate_addrNextState_addrs u n
    show (advanceAddrCursor (addrNextState^[n] u)).addr_cursor = (u.addr_cursor + (n + 1)) % u.addrs.length
    unfold advanceAddrCursor
    rw [if_neg (by
      rw [haddr]
      intro hcon
      rw [List.isEmpty_iff] at hcon
      rw [hcon] at hlen
      simp at hlen)]
    show ((addrNextState^[n] u).addr_cursor + 1) % (addrNextState^[n] u).addrs.length
        = (u.addr_cursor + (n + 1)) % u.addrs.length
    rw [haddr, ih]
    rw [Nat.mod_add_mod]
    rw [← Nat.add_assoc]

/-- Concrete limits for the scenarios: threshold 3 failures within a
300-second window, 60-second revival. -/
def sampleLimits : Limits := ⟨60, 0, 300, 1, 3, 5⟩

/-- The three-endpoint round-robin list of the spec scenarios, built
through the public construction API. -/
def sampleList : UpstreamList :=
  rspamd_upstreams_set_rotation
    (rspamd_upstreams_parse_line (rspamd_upstreams_create sampleLimits)
      "a:80, b:80; c:80" 80 none).2
    .round_robin

theorem sampleList_reachable : Reachable sampleList :=
  Reachable.set_rot _ _
    (Reachable.parse _ _ _ _ (Reachable.create sampleLimits (by decide)))

/-- Limits with failure threshold 1. -/
def oneLimits : Limits := ⟨60, 0, 300, 1, 1, 5⟩

/-- A single-endpoint list with failure threshold 1. -/
def oneList : UpstreamList :=
  (rspamd_upstreams_parse_line (rspamd_upstreams_create oneLimits) "x" 80 none).2

theorem oneList_reachable : Reachable oneList :=
  Reachable.parse _ _ _ _ (Reachable.create oneLimits (by decide))

/-- `sampleList` with endpoint 1 failed to death: three failures inside
one error window. -/
def mixedList : UpstreamList :=
  (rspamd_upstream_fail
    (rspamd_upstream_fail (rspamd_upstream_fail sampleList 1 false 100 0).1
      1 false 101 0).1
    1 false 102 0).1

theorem mixedList_reachable : Reachable mixedList :=
  Reachable.fail _ _ _ _ _
    (Reachable.fail _ _ _ _ _ (Reachable.fail _ _ _ _ _ sampleList_reachable))

/-- A concrete endpoint with two resolved addresses and user data 7. -/
def demoUp : Upstream :=
  { name := "h", port := 80, priority := 0, weight := 1, errors := 0,
    window_start := none, revive_at := 0, alive := true, addrs := [11, 22],
    addr_cursor := 0, user := some 7 }

/-- C1: at every reachable state every endpoint satisfies
`errors < max_errors ∨ alive = false`, and a `fail` in Alive whose
windowed error count reaches `max_errors` moves the endpoint to Dead:
`alive = false`, `revive_at` strictly in the future, and the cached alive
counter decremented by one. -/
theorem claim1_fail_threshold_invariant (ls : UpstreamList) (h : Reachable ls) :
    (∀ u ∈ ls.ups, u.errors < ls.limits.max_errors ∨ u.alive = false) ∧
    (∀ i u af now jit, ls.ups.get? i = some u → u.alive = true →
      ls.limits.max_errors ≤ (failWindow ls.limits u now).2 →
      ∃ u2, (rspamd_upstream_fail ls i af now jit).1.ups.get? i = some u2 ∧
        u2.alive = false ∧ now < u2.revive_at ∧
        (rspamd_upstream_fail ls i af now jit).1.alive_count + 1 = ls.alive_count) := by
  obtain ⟨hmax, hcnt, hinv⟩ := inv_of_reachable ls h
  refine ⟨hinv, ?_⟩
  intro i u af now jit hg hal hd
  rw [fail_eq_kill ls i u af now jit hg hal hd]
  refine ⟨killUp ls.limits u af now jit, ?_, ?_, ?_, ?_⟩
  · exact get?_set_self ls.ups i _ (lt_of_get?_some ls.ups i u hg)
  · exact killUp_alive ls.limits u af now jit
  · rw [killUp_revive_at]
    exact reviveAt_future ls.limits now jit
  · show ls.alive_count - 1 + 1 = ls.alive_count
    have := countAlive_pos ls.ups i u hg hal
    omega

/-- C1 witness: the single-endpoint list with threshold 1; one failure at
time 100 kills the endpoint with a future revival deadline and drops the
alive counter from 1 to 0. -/
theorem claim1_witness :
    ∃ u2, (rspamd_upstream_fail oneList 0 false 100 0).1.ups.get? 0 = some u2 ∧
      u2.alive = false ∧ 100 < u2.revive_at ∧
      (rspamd_upstream_fail oneList 0 false 100 0).1.alive_count + 1
        = oneList.alive_count :=
  (claim1_fail_threshold_invariant oneList oneList_reachable).2 0
    (mkUpstream ("x", 80, 0) none) false 100 0 (by decide) (by decide) (by decide)

/-- C3: at every reachable state the cached counter returned by
`rspamd_upstreams_alive` equals the number of endpoints whose `alive`
flag is set, and the equality is preserved by `ok`, `fail`, the revival
timer, selection (including all-dead recovery) and endpoint addition;
destruction frees the list and leaves no state to measure. -/
theorem claim3_alive_count_cached (ls : UpstreamList) (h : Reachable ls) :
    rspamd_upstreams_alive ls = countAlive ls.ups ∧
    (∀ i, rspamd_upstreams_alive (rspamd_upstream_ok ls i).1
        = countAlive (rspamd_upstream_ok ls i).1.ups) ∧
    (∀ i af now jit, rspamd_upstreams_alive (rspamd_upstream_fail ls i af now jit).1
        = countAlive (rspamd_upstream_fail ls i af now jit).1.ups) ∧
    (∀ i now, rspamd_upstreams_alive (rspamd_upstream_revive ls i now).1
        = countAlive (rspamd_upstream_revive ls i now).1.ups) ∧
    (∀ dt key rnd, rspamd_upstreams_alive (rspamd_upstream_get ls dt key rnd).2.1
        = countAlive (rspamd_upstream_get ls dt key rnd).2.1.ups) ∧
    (∀ s p d, rspamd_upstreams_alive (rspamd_upstreams_add_upstream ls s p d).2
        = countAlive (rspamd_upstreams_add_upstream ls s p d).2.ups) := by
  refine ⟨(inv_of_reachable ls h).2.1, ?_, ?_, ?_, ?_, ?_⟩
  · intro i
    exact (inv_of_reachable _ (Reachable.ok ls i h)).2.1
  · intro i af now jit
    exact (inv_of_reachable _ (Reachable.fail ls i af now jit h)).2.1
  · intro i now
    exact (inv_of_reachable _ (Reachable.revive ls i now h)).2.1
  · intro dt key rnd
    exact (inv_of_reachable _ (Reachable.get ls dt key rnd h)).2.1
  · intro s p d
    exact (inv_of_reachable _ (Reachable.add ls s p d h)).2.1

/-- C3 witness: the cached counter of the mixed list (one endpoint dead)
equals the recount. -/
theorem claim3_witness :
    rspamd_upstreams_alive mixedList = countAlive mixedList.ups :=
  (claim3_alive_count_cached mixedList mixedList_reachable).1

/-- C5: `ok` twice on an endpoint in Alive equals `ok` once (both the
endpoint and the whole list state), and `fail` on an endpoint in Dead
leaves the list state, in particular the endpoint's error count,
unchanged. -/
theorem claim5_ok_idempotent_fail_dead (ls : UpstreamList) (i j : Nat)
    (hal : (ls.ups.get? i).map Upstream.alive = some true)
    (hdead : (ls.ups.get? j).map Upstream.alive = some false) :
    (rspamd_upstream_ok (rspamd_upstream_ok ls i).1 i).1
        = (rspamd_upstream_ok ls i).1 ∧
    (∀ af now jit, (rspamd_upstream_fail ls j af now jit).1 = ls ∧
      ((rspamd_upstream_fail ls j af now jit).1.ups.get? j).map Upstream.errors
        = (ls.ups.get? j).map Upstream.errors) := by
  constructor
  · cases hg : ls.ups.get? i with
    | none => rw [hg] at hal; exact Option.noConfusion hal
    | some u =>
      rw [hg] at hal
      simp only [Option.map_some', Option.some.injEq] at hal
      have h1 := ok_eq_alive ls i u hg hal
      rw [h1]
      have hg1 : ({ ls with ups := ls.ups.set i (okUp u) }).ups.get? i
          = some (okUp u) :=
        get?_set_self ls.ups i (okUp u) (lt_of_get?_some ls.ups i u hg)
      have hal1 : (okUp u).alive = true := hal
      have h2 := ok_eq_alive { ls with ups := ls.ups.set i (okUp u) } i (okUp u) hg1 hal1
      rw [h2]
      show ({ ls with ups := (ls.ups.set i (okUp u)).set i (okUp (okUp u)) } : UpstreamList)
          = { ls with ups := ls.ups.set i (okUp u) }
      have hok : okUp (okUp u) = okUp u := rfl
      rw [hok, List.set_set]
  · intro af now jit
    cases hg : ls.ups.get? j with
    | none => rw [hg] at hdead; exact Option.noConfusion hdead
    | some v =>
      rw [hg] at hdead
      simp only [Option.map_some', Option.some.injEq] at hdead
      have h1 := fail_eq_dead ls j v af now jit hg hdead
      rw [h1]
      refine ⟨rfl, ?_⟩
      show (ls.ups.get? j).map Upstream.errors = (some v).map Upstream.errors
      rw [hg]

/-- C5 witness: in the mixed list, endpoint 0 is alive (ok twice equals
ok once) and endpoint 1 is dead (fail at time 200 changes nothing). -/
theorem claim5_witness :
    (rspamd_upstream_ok (rspamd_upstream_ok mixedList 0).1 0).1
        = (rspamd_upstream_ok mixedList 0).1 ∧
    (rspamd_upstream_fail mixedList 1 false 200 0).1 = mixedList :=
  ⟨(claim5_ok_idempotent_fail_dead mixedList 0 1 (by decide) (by decide)).1,
   ((claim5_ok_idempotent_fail_dead mixedList 0 1 (by decide) (by decide)).2
      false 200 0).1⟩

theorem parse_fold_spec (toks : List (List Char)) (p : Nat) (d : Option Nat)
    (acc : Bool × UpstreamList) :
    (toks.foldl (parseStep p d) acc).1
        = (acc.1 || toks.any (fun t => (parseUpstreamToken t p).isSome)) ∧
    (toks.foldl (parseStep p d) acc).2.ups
        = acc.2.ups ++ toks.filterMap
            (fun t => (parseUpstreamToken t p).map (fun pu => mkUpstream pu d)) := by
  induction toks generalizing acc with
  | nil => simp
  | cons t ts ih =>
    cases hp : parseUpstreamToken t p with
    | none =>
      have hstep : parseStep p d acc t = (acc.1 || false, acc.2) := by
        simp [parseStep, rspamd_upstreams_add_upstream, hp]
      simp only [List.foldl_cons, List.any_cons, List.filterMap_cons, hp, hstep]
      have hrec := ih (acc.1 || false, acc.2)
      refine ⟨?_, ?_⟩
      · rw [hrec.1]
        simp [Bool.or_assoc]
      · rw [hrec.2]
        simp
    | some pu =>
      have hstep : parseStep p d acc t
          = (acc.1 || true,
             { acc.2 with
                 ups := acc.2.ups ++ [mkUpstream pu d],
                 alive_count := acc.2.alive_count + 1 }) := by
        simp [parseStep, rspamd_upstreams_add_upstream, hp]
      simp only [List.foldl_cons, List.any_cons, List.filterMap_cons, hp, hstep]
      have hrec := ih (acc.1 || true,
        { acc.2 with
            ups := acc.2.ups ++ [mkUpstream pu d],
            alive_count := acc.2.alive_count + 1 })
      refine ⟨?_, ?_⟩
      · rw [hrec.1]
        simp [Bool.or_assoc]
      · rw [hrec.2]
        simp [List.append_assoc]

/-- C6: a multi-endpoint line is split at runs of commas, semicolons and
whitespace; every non-empty entry is attempted independently through the
single-entry parser, the call returns true exactly when at least one
entry parses, and every parsing entry is appended regardless of earlier
failures. -/
theorem claim6_parse_line_any_added (ls : UpstreamList) (s : String) (p : Nat)
    (d : Option Nat) :
    ((rspamd_upstreams_parse_line ls s p d).1 = true ↔
      ∃ t ∈ lineTokens s, (parseUpstreamToken t p).isSome = true) ∧
    (rspamd_upstreams_parse_line ls s p d).2.ups
      = ls.ups ++ (lineTokens s).filterMap
          (fun t => (parseUpstreamToken t p).map (fun pu => mkUpstream pu d)) := by
  have hs := parse_fold_spec (lineTokens s) p d (false, ls)
  unfold rspamd_upstreams_parse_line
  constructor
  · rw [hs.1]
    simp only [Bool.false_or]
    exact List.any_eq_true
  · exact hs.2

/-- C10: `set_data` returns the previously stored opaque pointer,
`get_data` afterwards returns the new one, and every other endpoint field
is unchanged (the function touches no list state at all). -/
theorem claim10_set_data_roundtrip (u : Upstream) (d : Option Nat) :
    (rspamd_upstream_set_data u d).1 = rspamd_upstream_get_data u ∧
    rspamd_upstream_get_data (rspamd_upstream_set_data u d).2 = d ∧
    (rspamd_upstream_set_data u d).2 = { u with user := d } ∧
    (rspamd_upstream_set_data u d).2.name = u.name ∧
    (rspamd_upstream_set_data u d).2.port = u.port ∧
    (rspamd_upstream_set_data u d).2.priority = u.priority ∧
    (rspamd_upstream_set_data u d).2.weight = u.weight ∧
    (rspamd_upstream_set_data u d).2.errors = u.errors ∧
    (rspamd_upstream_set_data u d).2.window_start = u.window_start ∧
    (rspamd_upstream_set_data u d).2.revive_at = u.revive_at ∧
    (rspamd_upstream_set_data u d).2.alive = u.alive ∧
    (rspamd_upstream_set_data u d).2.addrs = u.addrs ∧
    (rspamd_upstream_set_data u d).2.addr_cursor = u.addr_cursor :=
  ⟨rfl, rfl, rfl, rfl, rfl, rfl, rfl, rfl, rfl, rfl, rfl, rfl, rfl⟩

/-- C2: selection returns the none sentinel exactly on a list with zero
endpoints; on a non-empty list whose cached alive counter is zero the
all-dead recovery first revives every endpoint (alive, zero errors,
counter = number of endpoints, ONLINE fired for each in order) and the
call still returns an endpoint. -/
theorem claim2_get_empty_and_alldead (ls : UpstreamList) (h : Reachable ls)
    (dt : Rotation) (key : Option (List Nat)) (rnd : Nat) :
    ((rspamd_upstream_get ls dt key rnd).1 = none ↔ ls.ups = []) ∧
    (ls.ups ≠ [] → ls.alive_count = 0 →
      ((rspamd_upstream_get ls dt key rnd).1).isSome = true ∧
      (∀ u ∈ (rspamd_upstream_get ls dt key rnd).2.1.ups,
          u.alive = true ∧ u.errors = 0) ∧
      (rspamd_upstream_get ls dt key rnd).2.1.alive_count = ls.ups.length ∧
      (rspamd_upstream_get ls dt key rnd).2.2
        = (List.range ls.ups.length).map (fun i => ⟨i, WatchEvent.online⟩)) := by
  have hInv := inv_of_reachable ls h
  have hsome : ls.ups ≠ [] → ((rspamd_upstream_get ls dt key rnd).1).isSome = true := by
    intro hne
    obtain ⟨j, hj⟩ := recover_eligible ls hInv hne
    exact getCommon_isSome ls (effectiveRot ls dt) key rnd none j hne hj
  constructor
  · constructor
    · intro h0
      by_contra hne
      have hs := hsome hne
      rw [h0] at hs
      exact Bool.noConfusion hs
    · intro h0
      show (getCommon ls (effectiveRot ls dt) key rnd none).1 = none
      rw [getCommon_empty ls (effectiveRot ls dt) key rnd none h0]
  · intro hne hz
    obtain ⟨i, hi⟩ := Option.isSome_iff_exists.mp (hsome hne)
    have hi2 : (getCommon ls (effectiveRot ls dt) key rnd none).1 = some i := hi
    obtain ⟨p, hp1, helig, heq⟩ :=
      getCommon_some_spec ls (effectiveRot ls dt) key rnd none i hi2
    have hrec : recover ls = reviveAllL ls := recover_of_dead ls hz
    have hmap : ∀ v ∈ (recover ls).1.ups, v.alive = true ∧ v.errors = 0 := by
      rw [hrec]
      intro v hv
      rcases List.mem_map.mp hv with ⟨w, hw, hvw⟩
      rw [← hvw]
      exact ⟨rfl, rfl⟩
    refine ⟨hsome hne, ?_, ?_, ?_⟩
    · intro v hv
      have hv2 : v ∈ (rspamd_upstream_get ls dt key rnd).2.1.ups := hv
      rw [show rspamd_upstream_get ls dt key rnd
            = getCommon ls (effectiveRot ls dt) key rnd none from rfl, heq] at hv2
      have hv3 : v ∈ advanceAddrAt (recover ls).1.ups i := hv2
      rcases mem_advanceAddrAt (recover ls).1.ups i v hv3 with hm | ⟨w, hw, hvw⟩
      · exact hmap v hm
      · have hwf := hmap w hw
        rw [hvw]
        rw [advanceAddrCursor_alive, advanceAddrCursor_errors]
        exact hwf
    · show (rspamd_upstream_get ls dt key rnd).2.1.alive_count = ls.ups.length
      rw [show rspamd_upstream_get ls dt key rnd
            = getCommon ls (effectiveRot ls dt) key rnd none from rfl, heq]
      show (recover ls).1.alive_count = ls.ups.length
      rw [hrec]
      rfl
    · show (rspamd_upstream_get ls dt key rnd).2.2
        = (List.range ls.ups.length).map (fun k => ⟨k, WatchEvent.online⟩)
      rw [show rspamd_upstream_get ls dt key rnd
            = getCommon ls (effectiveRot ls dt) key rnd none from rfl, heq]
      show (recover ls).2 = (List.range ls.ups.length).map (fun k => ⟨k, WatchEvent.online⟩)
      rw [hrec]
      rfl

/-- C2 witness: the single-endpoint list failed to death; the next
selection revives it, returns it, and fires its ONLINE notice. -/
theorem claim2_witness :
    ((rspamd_upstream_get (rspamd_upstream_fail oneList 0 false 100 0).1
        .random none 0).1 = none ↔
      (rspamd_upstream_fail oneList 0 false 100 0).1.ups = []) ∧
    ((rspamd_upstream_get (rspamd_upstream_fail oneList 0 false 100 0).1
        .random none 0).1).isSome = true :=
  ⟨(claim2_get_empty_and_alldead (rspamd_upstream_fail oneList 0 false 100 0).1
      (Reachable.fail _ _ _ _ _ oneList_reachable) .random none 0).1,
   ((claim2_get_empty_and_alldead (rspamd_upstream_fail oneList 0 false 100 0).1
      (Reachable.fail _ _ _ _ _ oneList_reachable) .random none 0).2
      (by decide) (by decide)).1⟩

/-- C4: with the round-robin policy on a list whose endpoints are all
alive with equal weights, a `get` returns the endpoint under the cursor
and advances the cursor exactly once (modulo the list length); on the
concrete three-endpoint list a, b, c six successive gets yield
a,b,c,a,b,c. -/
theorem claim4_round_robin_rotation (ls : UpstreamList) (h : Reachable ls) (w : Nat)
    (hrot : ls.rot = .round_robin) (hne : ls.ups ≠ [])
    (halive : ∀ u ∈ ls.ups, u.alive = true)
    (hw : ∀ u ∈ ls.ups, u.weight = w)
    (dt : Rotation) (key : Option (List Nat)) (rnd : Nat) :
    (rspamd_upstream_get ls dt key rnd).1
        = some (ls.rr_cursor % ls.ups.length) ∧
    (rspamd_upstream_get ls dt key rnd).2.1.rr_cursor
        = (ls.rr_cursor % ls.ups.length + 1) % ls.ups.length ∧
    (getSeq sampleList 6).1 = [0, 1, 2, 0, 1, 2] ∧
    sampleList.ups.map Upstream.name = ["a", "b", "c"] := by
  have hInv := inv_of_reachable ls h
  have hlen : 0 < ls.ups.length := List.length_pos.mpr hne
  have hcl : ls.rr_cursor % ls.ups.length < ls.ups.length := Nat.mod_lt _ hlen
  have hz : ls.alive_count ≠ 0 := by
    have h1 : ls.alive_count = countAlive ls.ups := hInv.2.1
    have h2 : countAlive ls.ups = ls.ups.length := countAlive_all ls.ups halive
    omega
  have hrec : recover ls = (ls, []) := recover_of_alive ls hz
  have heff : effectiveRot ls dt = .round_robin := by
    unfold effectiveRot
    rw [hrot]
  have hgu : ls.ups.get? (ls.rr_cursor % ls.ups.length)
      = some (ls.ups.get ⟨ls.rr_cursor % ls.ups.length, hcl⟩) :=
    List.get?_eq_get hcl
  have helig : eligibleB ls.ups none (ls.rr_cursor % ls.ups.length) = true :=
    eligibleB_of ls.ups none _ _ hgu
      (halive _ (List.get_mem ls.ups _ hcl)) (by simp)
  have hscan : scanFrom ls.ups none ls.rr_cursor
      = some (ls.rr_cursor % ls.ups.length) :=
    scanFrom_self ls.ups none ls.rr_cursor hlen helig
  have hsel : selectIdx (recover ls).1.ups (recover ls).1.rr_cursor
      (effectiveRot ls dt) key rnd none
      = some (ls.rr_cursor % ls.ups.length,
              (ls.rr_cursor % ls.ups.length + 1) % ls.ups.length) := by
    rw [hrec, heff]
    simp only [selectIdx, rrSelect]
    rw [hscan]
    rfl
  have heq := getCommon_eq ls (effectiveRot ls dt) key rnd none _ hne hsel
  refine ⟨?_, ?_, by decide, by decide⟩
  · show (getCommon ls (effectiveRot ls dt) key rnd none).1 = _
    rw [heq]
  · show (getCommon ls (effectiveRot ls dt) key rnd none).2.1.rr_cursor = _
    rw [heq]

/-- C4 witness: the three-endpoint sample list with cursor 0 returns
endpoint 0 and advances the cursor to 1. -/
theorem claim4_witness :
    (rspamd_upstream_get sampleList .undef none 0).1
        = some (sampleList.rr_cursor % sampleList.ups.length) ∧
    (rspamd_upstream_get sampleList .undef none 0).2.1.rr_cursor
        = (sampleList.rr_cursor % sampleList.ups.length + 1) % sampleList.ups.length :=
  ⟨(claim4_round_robin_rotation sampleList sampleList_reachable 1 (by decide)
      (by decide) (by decide) (by decide) .undef none 0).1,
   (claim4_round_robin_rotation sampleList sampleList_reachable 1 (by decide)
      (by decide) (by decide) (by decide) .undef none 0).2.1⟩

/-- C7: when the effective policy is hashed and the key is missing (null
pointer or zero length), the call is exactly a round-robin selection for
that call, and on a non-empty reachable list it still returns an
endpoint. -/
theorem claim7_hashed_missing_key_fallback (ls : UpstreamList) (dt : Rotation)
    (key : Option (List Nat)) (rnd : Nat)
    (hrot : effectiveRot ls dt = .hashed) (hk : keyMissing key = true) :
    rspamd_upstream_get ls dt key rnd
        = rspamd_upstream_get_forced ls .round_robin none 0 ∧
    (Reachable ls → ls.ups ≠ [] →
      ((rspamd_upstream_get ls dt key rnd).1).isSome = true) := by
  constructor
  · show getCommon ls (effectiveRot ls dt) key rnd none
        = getCommon ls .round_robin none 0 none
    rw [hrot]
    simp only [getCommon]
    rw [selectIdx_hashed_missing (recover ls).1.ups (recover ls).1.rr_cursor key rnd none hk]
  · intro hr hne
    obtain ⟨j, hj⟩ := recover_eligible ls (inv_of_reachable ls hr) hne
    exact getCommon_isSome ls (effectiveRot ls dt) key rnd none j hne hj

/-- The sample list reconfigured to the hashed policy. -/
def hashedList : UpstreamList :=
  rspamd_upstreams_set_rotation sampleList .hashed

theorem hashedList_reachable : Reachable hashedList :=
  Reachable.set_rot _ _ sampleList_reachable

/-- C7 witness: a hashed-policy list queried without a key behaves as a
round-robin selection and still yields an endpoint. -/
theorem claim7_witness :
    rspamd_upstream_get hashedList .undef none 5
        = rspamd_upstream_get_forced hashedList .round_robin none 0 ∧
    ((rspamd_upstream_get hashedList .undef none 5).1).isSome = true :=
  ⟨(claim7_hashed_missing_key_fallback hashedList .undef none 5
      (by decide) (by decide)).1,
   (claim7_hashed_missing_key_fallback hashedList .undef none 5
      (by decide) (by decide)).2 hashedList_reachable (by decide)⟩

/-- C8: `get_except` never returns the excluded endpoint while a live
alternative exists: whenever some other endpoint is alive, the call
returns a live endpoint different from the excluded index, whatever the
excluded endpoint's own state. -/
theorem claim8_get_except_excludes (ls : UpstreamList) (e : Nat) (dt : Rotation)
    (key : Option (List Nat)) (rnd : Nat) (h : Reachable ls)
    (j : Nat) (v : Upstream) (hj : ls.ups.get? j = some v) (hjv : v.alive = true)
    (hje : j ≠ e) :
    ∃ i u2, (rspamd_upstream_get_except ls e dt key rnd).1 = some i ∧ i ≠ e ∧
      ls.ups.get? i = some u2 ∧ u2.alive = true := by
  have hInv := inv_of_reachable ls h
  have hz : ls.alive_count ≠ 0 := by
    have h1 := countAlive_pos ls.ups j v hj hjv
    have h2 : ls.alive_count = countAlive ls.ups := hInv.2.1
    omega
  have hrec : recover ls = (ls, []) := recover_of_alive ls hz
  have hne : ls.ups ≠ [] := List.ne_nil_of_mem (List.get?_mem hj)
  have helig : eligibleB (recover ls).1.ups (some e) j = true := by
    rw [hrec]
    refine eligibleB_of ls.ups (some e) j v hj hjv ?_
    intro hc
    exact hje (Option.some.inj hc).symm
  have hs := selectIdx_isSome (recover ls).1.ups (recover ls).1.rr_cursor
    (effectiveRot ls dt) key rnd (some e) j helig
  obtain ⟨p, hp⟩ := Option.isSome_iff_exists.mp hs
  have heq := getCommon_eq ls (effectiveRot ls dt) key rnd (some e) p hne hp
  have helig2 := selectIdx_eligible (recover ls).1.ups (recover ls).1.rr_cursor
    (effectiveRot ls dt) key rnd (some e) p hp
  rw [hrec] at helig2
  obtain ⟨hlt, u2, hg2, ha2, hx2⟩ := eligibleB_spec ls.ups (some e) p.1 helig2
  refine ⟨p.1, u2, ?_, ?_, hg2, ha2⟩
  · show (getCommon ls (effectiveRot ls dt) key rnd (some e)).1 = some p.1
    rw [heq]
  · intro hc
    exact hx2 (by rw [hc])

/-- C8 witness: in the mixed list endpoint 1 is dead; excluding it (the
"anything but the one I just failed on" pattern) still returns a live
endpoint different from it. -/
theorem claim8_witness :
    ∃ i u2, (rspamd_upstream_get_except mixedList 1 .undef none 0).1 = some i ∧
      i ≠ 1 ∧ mixedList.ups.get? i = some u2 ∧ u2.alive = true :=
  claim8_get_except_excludes mixedList 1 .undef none 0 mixedList_reachable 0
    (mkUpstream ("a", 80, 0) none) (by decide) (by decide) (by decide)

/-- C9: `addr_cur` reads the address under the cursor without touching
the endpoint (its type takes the endpoint as read-only input and returns
no state); `addr_next` only advances the cursor by one modulo the number
of addresses and returns the address now current, so iterated calls
rotate through the whole address set; and a successful `get` advances the
chosen endpoint's address cursor by exactly that one step, leaving its
address list unchanged. -/
theorem claim9_addr_cursor_rotation (u : Upstream)
    (hc : u.addr_cursor < u.addrs.length) :
    rspamd_upstream_addr_cur u = u.addrs.get? u.addr_cursor ∧
    (rspamd_upstream_addr_next u).2
        = { u with addr_cursor := (u.addr_cursor + 1) % u.addrs.length } ∧
    (rspamd_upstream_addr_next u).1
        = u.addrs.get? ((u.addr_cursor + 1) % u.addrs.length) ∧
    (∀ k, (addrNextState^[k] u).addr_cursor
        = (u.addr_cursor + k) % u.addrs.length) ∧
    (∀ ls dt key rnd i v, (rspamd_upstream_get ls dt key rnd).1 = some i →
      ls.ups.get? i = some v →
      ∃ v2, (rspamd_upstream_get ls dt key rnd).2.1.ups.get? i = some v2 ∧
        v2.addrs = v.addrs ∧
        v2.addr_cursor = (advanceAddrCursor v).addr_cursor) := by
  have hnotE : ¬ (u.addrs.isEmpty = true) := by
    rw [List.isEmpty_iff]
    intro hcon
    rw [hcon] at hc
    simp at hc
  have hadv : advanceAddrCursor u
      = { u with addr_cursor := (u.addr_cursor + 1) % u.addrs.length } := by
    unfold advanceAddrCursor
    rw [if_neg hnotE]
  refine ⟨rfl, ?_, ?_, ?_, ?_⟩
  · show advanceAddrCursor u = _
    exact hadv
  · show rspamd_upstream_addr_cur (advanceAddrCursor u) = _
    rw [hadv]
    rfl
  · exact iterate_addrNextState_cursor u hc
  · intro ls dt key rnd i v hi hv
    have hi2 : (getCommon ls (effectiveRot ls dt) key rnd none).1 = some i := hi
    obtain ⟨p, hp1, helig, heq⟩ :=
      getCommon_some_spec ls (effectiveRot ls dt) key rnd none i hi2
    rcases recover_get? ls i v hv with hrg | hrg
    · refine ⟨advanceAddrCursor v, ?_, advanceAddrCursor_addrs v, rfl⟩
      show (getCommon ls (effectiveRot ls dt) key rnd none).2.1.ups.get? i
          = some (advanceAddrCursor v)
      rw [heq]
      exact advanceAddrAt_get? (recover ls).1.ups i v hrg
    · refine ⟨advanceAddrCursor (reviveUp v), ?_, ?_, ?_⟩
      · show (getCommon ls (effectiveRot ls dt) key rnd none).2.1.ups.get? i
            = some (advanceAddrCursor (reviveUp v))
        rw [heq]
        exact advanceAddrAt_get? (recover ls).1.ups i (reviveUp v) hrg
      · rw [advanceAddrCursor_addrs]
        exact reviveUp_addrs v
      · exact advanceAddrCursor_congr (reviveUp v) v rfl rfl

/-- C9 witness: a two-address endpoint; three `addr_next` calls leave the
cursor at (0 + 3) mod 2. -/
theorem claim9_witness :
    (addrNextState^[3] demoUp).addr_cursor
        = (demoUp.addr_cursor + 3) % demoUp.addrs.length :=
  (claim9_addr_cursor_rotation demoUp (by decide)).2.2.2.1 3

end Rspamd
